import Mathlib

/-
Verification development for the world-lab backend (two Express variants:
the object-detection server with POST /upload, and the hardened free-form
server with POST /analyze).

The embedding models:
  - JSON.parse as a total fuel-indexed recursive-descent parser over
    character lists (strict JSON grammar: no leading zeros, mandatory
    fraction digits, only the four JSON whitespace characters, control
    characters in strings must be escaped, no trailing input).  JSON
    numbers are kept in exact decimal form (sign, combined digit mantissa,
    fraction length, exponent) rather than as IEEE doubles; this is the
    standard shallow embedding of JS numerics and is faithful for every
    comparison the code performs.  Lone-surrogate escape sequences, which a
    Lean string cannot hold, go through Char.ofNat as scalars.
  - JSON.stringify restricted to detection lists (the only value the
    round-trip property serializes).
  - extractJsonFromResponse with its three try/catch stages, the
    code-fence regex replace, String.prototype.trim and the greedy
    bracketed-array regex match.
  - both multer fileFilter callbacks, and both request handlers as
    functions from the request oracle (file metadata, encode result,
    configured key, provider outcome) to the HTTP response together with
    the list of temp-file deletions performed.
Timestamps, logging and the prompt text do not influence any modelled
observable and are omitted.
-/

set_option maxHeartbeats 1000000

namespace WorldLab

/-! Character classes and low-level scanning helpers. -/

/-- JSON whitespace (exactly the four characters JSON.parse skips). -/
def isWsC (c : Char) : Bool :=
  c.toNat = 32 || c.toNat = 9 || c.toNat = 10 || c.toNat = 13

/-- ASCII decimal digit test, phrased on code points. -/
def isDigitC (c : Char) : Bool :=
  48 ≤ c.toNat && c.toNat ≤ 57

def skipWs : List Char → List Char
  | [] => []
  | c :: cs => if isWsC c then skipWs cs else c :: cs

/-- Longest digit run at the front of the input, with the remainder. -/
def splitDigits : List Char → List Char × List Char
  | [] => ([], [])
  | c :: cs =>
    if isDigitC c then
      let p := splitDigits cs
      (c :: p.1, p.2)
    else ([], c :: cs)

/-- Numeric value of a most-significant-first digit run. -/
def digitsVal (ds : List Char) : Nat :=
  ds.foldl (fun a c => a * 10 + (c.toNat - 48)) 0

/-- Substring test (used for the error.message.includes checks). -/
def hasSubstr (pat : List Char) : List Char → Bool
  | [] => pat.isEmpty
  | c :: cs => pat.isPrefixOf (c :: cs) || hasSubstr pat cs

/-! JSON values.  Numbers are exact decimals: value =
(-1 if neg) * mant / 10 ^ fracLen * 10 ^ exp. -/

structure JNum where
  neg : Bool
  mant : Nat
  fracLen : Nat
  exp : Int
deriving DecidableEq, Repr

inductive Js where
  | null : Js
  | bool (b : Bool) : Js
  | num (n : JNum) : Js
  | str (s : String) : Js
  | arr (elements : List Js) : Js
  | obj (members : List (String × Js)) : Js
deriving Repr

/-! The JSON.parse model. -/

def hexValC (c : Char) : Option Nat :=
  if 48 ≤ c.toNat ∧ c.toNat ≤ 57 then some (c.toNat - 48)
  else if 97 ≤ c.toNat ∧ c.toNat ≤ 102 then some (c.toNat - 87)
  else if 65 ≤ c.toNat ∧ c.toNat ≤ 70 then some (c.toNat - 55)
  else none

def escCharOf (e : Char) : Option Char :=
  if e = '"' then some '"'
  else if e = '\\' then some '\\'
  else if e = '/' then some '/'
  else if e = 'b' then some '\x08'
  else if e = 'f' then some '\x0c'
  else if e = 'n' then some '\n'
  else if e = 'r' then some '\x0d'
  else if e = 't' then some '\t'
  else none

/-- String body parser (after the opening quote): handles the escape set of
JSON, rejects raw control characters, stops at the closing quote. -/
def parseStringBody : Nat → List Char → Option (List Char × List Char)
  | 0, _ => none
  | _, [] => none
  | fuel + 1, c :: cs =>
    if c = '"' then some ([], cs)
    else if c = '\\' then
      match cs with
      | [] => none
      | e :: cs2 =>
        if e = 'u' then
          match cs2 with
          | h1 :: h2 :: h3 :: h4 :: cs3 =>
            match hexValC h1, hexValC h2, hexValC h3, hexValC h4 with
            | some a, some b, some c2, some d =>
              (parseStringBody fuel cs3).map fun p =>
                (Char.ofNat (((a * 16 + b) * 16 + c2) * 16 + d) :: p.1, p.2)
            | _, _, _, _ => none
          | _ => none
        else
          match escCharOf e with
          | some ch => (parseStringBody fuel cs2).map fun p => (ch :: p.1, p.2)
          | none => none
    else if c.toNat < 32 then none
    else (parseStringBody fuel cs).map fun p => (c :: p.1, p.2)

/-- String body parsing consumes at least one character per fuel unit, so
the input length is always enough fuel. -/
def parseStringTotal (cs : List Char) : Option (List Char × List Char) :=
  parseStringBody (cs.length + 1) cs

/-- Integer digits of a JSON number: a nonempty digit run, with a leading
zero only allowed for the single digit 0 (as in the JSON grammar). -/
def parseIntPart (cs : List Char) : Option (List Char × List Char) :=
  let p := splitDigits cs
  match p.1 with
  | [] => none
  | d :: ds => if d = '0' ∧ ds ≠ [] then none else some (d :: ds, p.2)

/-- Optional fraction: a dot must be followed by at least one digit. -/
def parseFracPart (cs : List Char) : Option (List Char × List Char) :=
  if cs.head? = some '.' then
    let p := splitDigits cs.tail
    if p.1 = [] then none else some (p.1, p.2)
  else some ([], cs)

/-- Optional exponent: e/E, an optional sign, at least one digit. -/
def parseExpPart (cs : List Char) : Option (Int × List Char) :=
  if cs.head? = some 'e' ∨ cs.head? = some 'E' then
    let t := cs.tail
    let st : Bool × List Char :=
      if t.head? = some '+' then (false, t.tail)
      else if t.head? = some '-' then (true, t.tail)
      else (false, t)
    let p := splitDigits st.2
    if p.1 = [] then none
    else some ((if st.1 then -(digitsVal p.1 : Int) else (digitsVal p.1 : Int)), p.2)
  else some (0, cs)

def parseNumber (cs : List Char) : Option (JNum × List Char) :=
  let sn : Bool × List Char :=
    if cs.head? = some '-' then (true, cs.tail) else (false, cs)
  match parseIntPart sn.2 with
  | none => none
  | some (ip, r1) =>
    match parseFracPart r1 with
    | none => none
    | some (fp, r2) =>
      match parseExpPart r2 with
      | none => none
      | some (ex, r3) => some (⟨sn.1, digitsVal (ip ++ fp), fp.length, ex⟩, r3)

/-- A remainder that cannot extend a rendered number. -/
def numBoundary (cs : List Char) : Bool :=
  match cs with
  | [] => true
  | c :: _ => !(isDigitC c || c == '.' || c == 'e' || c == 'E')

def litNull : List Char := ['n', 'u', 'l', 'l']
def litTrue : List Char := ['t', 'r', 'u', 'e']
def litFalse : List Char := ['f', 'a', 'l', 's', 'e']

/-- One-or-more comma-separated array elements up to the closing bracket;
the element parser is passed in (it is the value parser at smaller fuel). -/
def parseListAux (p : List Char → Option (Js × List Char)) :
    Nat → List Char → Option (List Js × List Char)
  | 0, _ => none
  | fuel + 1, cs =>
    match p cs with
    | none => none
    | some (v, r) =>
      match skipWs r with
      | ',' :: r2 =>
        match parseListAux p fuel r2 with
        | some (vs, r3) => some (v :: vs, r3)
        | none => none
      | ']' :: r2 => some ([v], r2)
      | _ => none

/-- One-or-more object members (string key, colon, value) up to the
closing brace. -/
def parseMembersAux (p : List Char → Option (Js × List Char)) :
    Nat → List Char → Option (List (String × Js) × List Char)
  | 0, _ => none
  | fuel + 1, cs =>
    match skipWs cs with
    | '"' :: t =>
      match parseStringTotal t with
      | none => none
      | some (k, r) =>
        match skipWs r with
        | ':' :: r2 =>
          match p r2 with
          | none => none
          | some (v, r3) =>
            match skipWs r3 with
            | ',' :: r4 =>
              match parseMembersAux p fuel r4 with
              | some (ms, r5) => some ((String.mk k, v) :: ms, r5)
              | none => none
            | '\x7d' :: r4 => some ([(String.mk k, v)], r4)
            | _ => none
        | _ => none
    | _ => none

/-- One step of the value parser; rec is the value parser at the next
smaller fuel. -/
def parseValueStep (rec : List Char → Option (Js × List Char)) (fuel : Nat)
    (cs0 : List Char) : Option (Js × List Char) :=
  let cs := skipWs cs0
  if litNull.isPrefixOf cs then some (.null, cs.drop 4)
  else if litTrue.isPrefixOf cs then some (.bool true, cs.drop 4)
  else if litFalse.isPrefixOf cs then some (.bool false, cs.drop 5)
  else
    match cs with
    | [] => none
    | c :: t =>
      if c = '"' then
        match parseStringTotal t with
        | some p => some (.str (String.mk p.1), p.2)
        | none => none
      else if c = '[' then
        match skipWs t with
        | ']' :: r => some (.arr [], r)
        | t2 =>
          match parseListAux rec fuel t2 with
          | some p => some (.arr p.1, p.2)
          | none => none
      else if c = '\x7b' then
        match skipWs t with
        | '\x7d' :: r => some (.obj [], r)
        | t2 =>
          match parseMembersAux rec fuel t2 with
          | some p => some (.obj p.1, p.2)
          | none => none
      else if c = '-' || isDigitC c then
        match parseNumber (c :: t) with
        | some p => some (.num p.1, p.2)
        | none => none
      else none

/-- The value parser, by explicit recursion on fuel so that it reduces
definitionally on concrete inputs. -/
def parseValue (fuel : Nat) : List Char → Option (Js × List Char) :=
  Nat.rec (motive := fun _ => List Char → Option (Js × List Char))
    (fun _ => none) (fun n ih => parseValueStep ih n) fuel

/-- The fuel 2*length+2 dominates the parser's worst case (at most two fuel
units are spent per consumed input character), so this model is total and
accepts exactly what JSON.parse accepts. -/
def jsonParse (s : String) : Option Js :=
  match parseValue (2 * s.data.length + 2) s.data with
  | some (v, r) =>
    match skipWs r with
    | [] => some v
    | _ => none
  | none => none

/-! The JSON.stringify model, restricted to detection lists. -/

def digitChar (n : Nat) : Char := Char.ofNat (48 + n)

/-- Decimal digit characters of a natural number, most significant first. -/
def natChars (n : Nat) : List Char :=
  if _h : n < 10 then [digitChar n]
  else natChars (n / 10) ++ [digitChar (n % 10)]
termination_by n
decreasing_by exact Nat.div_lt_self (by omega) (by omega)

def padZeros (k : Nat) (ds : List Char) : List Char :=
  List.replicate (k - ds.length) '0' ++ ds

def intChars (i : Int) : List Char :=
  if i < 0 then '-' :: natChars i.natAbs else natChars i.natAbs

/-- Unsigned part of a rendered number: integer digits, then the
fraction digits padded to the fraction length, then the exponent. -/
def numBody (m f : Nat) (e : Int) : List Char :=
  natChars (m / 10 ^ f) ++
    (if f = 0 then [] else '.' :: padZeros f (natChars (m % 10 ^ f))) ++
    (if e = 0 then [] else 'e' :: intChars e)

/-- Decimal rendering of an exact JSON number (sign, integer digits,
fraction digits, optional exponent). -/
def printJNum (n : JNum) : List Char :=
  (if n.neg then ['-'] else []) ++ numBody n.mant n.fracLen n.exp

def hexDigitChar (n : Nat) : Char :=
  if n < 10 then Char.ofNat (48 + n) else Char.ofNat (87 + n)

/-- JSON.stringify's escaping of one character. -/
def escapeChar (c : Char) : List Char :=
  if c = '"' then ['\\', '"']
  else if c = '\\' then ['\\', '\\']
  else if c = '\x08' then ['\\', 'b']
  else if c = '\x09' then ['\\', 't']
  else if c = '\x0a' then ['\\', 'n']
  else if c = '\x0c' then ['\\', 'f']
  else if c = '\x0d' then ['\\', 'r']
  else if c.toNat < 32 then
    ['\\', 'u', '0', '0', hexDigitChar (c.toNat / 16), hexDigitChar (c.toNat % 16)]
  else [c]

def escBody : List Char → List Char
  | [] => []
  | c :: cs => escapeChar c ++ escBody cs

def escString (s : String) : List Char := '"' :: escBody s.data ++ ['"']

/-- A detection record: label plus confidence, as produced and consumed by
the object-detection variant. -/
structure Detection where
  label : String
  confidence : JNum
deriving DecidableEq, Repr

def detJs (d : Detection) : Js :=
  .obj [("label", .str d.label), ("confidence", .num d.confidence)]

def jsDetections (x : List Detection) : Js := .arr (x.map detJs)

/-- The two members of a stringified detection object, between braces. -/
def detMembers (d : Detection) : List Char :=
  escString "label" ++ ':' :: escString d.label ++
    ',' :: escString "confidence" ++ ':' :: printJNum d.confidence

def printDetObj (d : Detection) : List Char :=
  '\x7b' :: detMembers d ++ ['\x7d']

def printDetList : List Detection → List Char
  | [] => []
  | [d] => printDetObj d
  | d :: ds => printDetObj d ++ ',' :: printDetList ds

/-- JSON.stringify of a detection array. -/
def serializeDetections (x : List Detection) : String :=
  String.mk ('[' :: printDetList x ++ [']'])

def jsToDetection : Js → Option Detection
  | .obj [(k1, .str l), (k2, .num c)] =>
    if k1 = "label" ∧ k2 = "confidence" then some ⟨l, c⟩ else none
  | _ => none

def detectionsOfList : List Js → Option (List Detection)
  | [] => some []
  | j :: js =>
    match jsToDetection j, detectionsOfList js with
    | some d, some ds => some (d :: ds)
    | _, _ => none

/-- Reading a parsed JSON value back as a detection list ("yields x back
unchanged" side of the round-trip). -/
def detectionsOfJs : Js → Option (List Detection)
  | .arr es => detectionsOfList es
  | _ => none

/-- Exact rational value denoted by a JNum. -/
def JNum.toRat (n : JNum) : ℚ :=
  (if n.neg then (-1 : ℚ) else 1) * (n.mant : ℚ) / (10 : ℚ) ^ n.fracLen *
    (if 0 ≤ n.exp then (10 : ℚ) ^ n.exp.toNat else 1 / (10 : ℚ) ^ (-n.exp).toNat)

/-- A well-formed detection per the spec: confidence is a number in the
unit interval. -/
def detWellFormed (d : Detection) : Prop :=
  0 ≤ d.confidence.toRat ∧ d.confidence.toRat ≤ 1

instance (d : Detection) : Decidable (detWellFormed d) := by
  unfold detWellFormed; infer_instance

/-- Boolean shape check: an array whose every element is a well-formed
detection object. -/
def isDetectionListJs : Js → Bool
  | .arr es => es.all fun j =>
      match jsToDetection j with
      | some d => decide (detWellFormed d)
      | none => false
  | _ => false

/-! The extractJsonFromResponse model (object-detection variant). -/

inductive ExtractResult where
  | value (j : Js) : ExtractResult
  | undefined : ExtractResult
deriving Repr

def jnumZero : JNum := ⟨false, 0, 0, 0⟩

/-- The sentinel detection list built in the innermost catch. -/
def sentinelJs : Js :=
  .arr [.obj [("label", .str "Error parsing objects"), ("confidence", .num jnumZero)]]

def backtick : Char := Char.ofNat 96

def fenceOpen : List Char := [backtick, backtick, backtick, 'j', 's', 'o', 'n', '\n']
def fenceClose : List Char := ['\n', backtick, backtick, backtick]
def fenceBare : List Char := [backtick, backtick, backtick]

/-- Global regex replace of the three code-fence alternatives by the empty
string, leftmost match first, alternatives tried in the regex's order. -/
def stripFencesAux : Nat → List Char → List Char
  | 0, cs => cs
  | _, [] => []
  | fuel + 1, c :: cs =>
    if fenceOpen.isPrefixOf (c :: cs) then stripFencesAux fuel (List.drop 7 cs)
    else if fenceClose.isPrefixOf (c :: cs) then stripFencesAux fuel (List.drop 3 cs)
    else if fenceBare.isPrefixOf (c :: cs) then stripFencesAux fuel (List.drop 2 cs)
    else c :: stripFencesAux fuel cs

def stripFences (s : String) : String := String.mk (stripFencesAux s.data.length s.data)

/-- The whitespace set of String.prototype.trim. -/
def isJsTrimWs (c : Char) : Bool :=
  let n := c.toNat
  n = 32 || n = 9 || n = 10 || n = 11 || n = 12 || n = 13 || n = 160 || n = 0x1680 ||
    (0x2000 ≤ n && n ≤ 0x200a) || n = 0x2028 || n = 0x2029 || n = 0x202f ||
    n = 0x205f || n = 0x3000 || n = 0xfeff

def jsTrim (s : String) : String :=
  String.mk (((s.data.dropWhile isJsTrimWs).reverse.dropWhile isJsTrimWs).reverse)

/-- The greedy bracketed-array regex: it matches exactly when some opening
bracket precedes some closing bracket, and the match runs from the first
opening bracket to the last closing bracket. -/
def arrayMatch (cs : List Char) : Option (List Char) :=
  match cs.findIdx? (fun c => c == '['), cs.reverse.findIdx? (fun c => c == ']') with
  | some i, some k =>
    let j := cs.length - 1 - k
    if i < j then some (List.take (j - i + 1) (List.drop i cs)) else none
  | _, _ => none

/-- The extractor of src/server.js: three nested try/catch stages.  The
sentinel is produced only inside the third catch, which is entered only
when a bracketed match was found and failed to parse; when no bracketed
match exists, control falls off the end of the function, i.e. it returns
the JS value undefined. -/
def extractJsonFromResponse (text : String) : ExtractResult :=
  match jsonParse text with
  | some j => .value j
  | none =>
    match jsonParse (jsTrim (stripFences text)) with
    | some j => .value j
    | none =>
      match arrayMatch text.data with
      | some m =>
        match jsonParse (String.mk m) with
        | some j => .value j
        | none => .value sentinelJs
      | none => .undefined

def extractStage1 (text : String) : Option Js := jsonParse text
def extractStage2 (text : String) : Option Js := jsonParse (jsTrim (stripFences text))
def extractStage3 (text : String) : Option (Option Js) :=
  match arrayMatch text.data with
  | some m => some (jsonParse (String.mk m))
  | none => none

/-- The layered-fallback description of extraction, stage by stage, first
success winning, with the amended final stage. -/
def extractLayered (text : String) : ExtractResult :=
  match extractStage1 text with
  | some j => .value j
  | none =>
    match extractStage2 text with
    | some j => .value j
    | none =>
      match extractStage3 text with
      | some (some j) => .value j
      | some none => .value sentinelJs
      | none => .undefined

/-! Upload metadata and the two multer fileFilter callbacks. -/

/-- Metadata of one multipart file part as multer delivers it. -/
structure FileRec where
  fieldname : String
  originalname : String
  mimetype : String
  path : String
  size : Nat
deriving DecidableEq, Repr

def asciiLower (s : String) : String := String.mk (s.data.map Char.toLower)

/-- Model of Node's path.extname: the substring of the basename from its
last dot, empty when there is no dot or the only dot is leading. -/
def extname (p : String) : String :=
  let baseRev := (p.data.reverse.dropWhile fun c => c == '/').takeWhile fun c => c != '/'
  if baseRev = ['.', '.'] then ""
  else
    match baseRev.findIdx? fun c => c == '.' with
    | none => ""
    | some j =>
      if j + 1 = baseRev.length then "" else String.mk ((baseRev.take (j + 1)).reverse)

namespace AnalyzeServer

def allowedMimeTypes : List String :=
  ["image/jpeg", "image/jpg", "image/png", "image/gif"]

def allowedExtensions : List String := [".jpeg", ".jpg", ".png", ".gif"]

/-- Octet-stream declarations are re-typed from the (lowercased) extension. -/
def normalizedMimeType (f : FileRec) : String :=
  if f.mimetype = "application/octet-stream" then
    "image/" ++ ((asciiLower (extname f.originalname)).drop 1)
  else f.mimetype

def isValidMimeType (f : FileRec) : Bool :=
  allowedMimeTypes.contains (asciiLower (normalizedMimeType f))

def isValidExtension (f : FileRec) : Bool :=
  allowedExtensions.contains (asciiLower (extname f.originalname))

def invalidTypeMessage (f : FileRec) : String :=
  "Invalid file type. Received mimetype: " ++ normalizedMimeType f ++
    ", extension: " ++ asciiLower (extname f.originalname) ++
    ". Allowed types: JPEG, PNG and GIF"

/-- The fileFilter of the /analyze variant: MIME OR extension. -/
def fileFilter (f : FileRec) : Except String Unit :=
  if isValidMimeType f || isValidExtension f then .ok ()
  else .error (invalidTypeMessage f)

end AnalyzeServer

namespace UploadServer

/-- The fileFilter regex of the /upload variant tests only the original
filename, case-insensitively, for an allowed dotted extension suffix. -/
def nameMatches (name : String) : Bool :=
  let l := (asciiLower name).data
  ".jpg".data.isSuffixOf l || ".jpeg".data.isSuffixOf l ||
    ".png".data.isSuffixOf l || ".gif".data.isSuffixOf l

/-- The fileFilter of the /upload variant: extension only, MIME ignored. -/
def fileFilter (f : FileRec) : Except String Unit :=
  if nameMatches f.originalname then .ok ()
  else .error "Only image files are allowed!"

end UploadServer

/-! The request pipelines.  The external world (filesystem read, provider
call) enters as an oracle; the handler maps it to the HTTP response plus
the list of temp-file deletions it performs. -/

/-- Outcome of the inference call: either the reply content, or an error
carrying the upstream response status (if any), the transport error code
(if any) and the error message. -/
inductive ApiOutcome where
  | ok (content : String) : ApiOutcome
  | err (responseStatus : Option Nat) (code : Option String) (message : String) : ApiOutcome
deriving DecidableEq, Repr

namespace AnalyzeServer

/-- The axios request timeout configured for the inference call. -/
def inferenceTimeoutMs : Nat := 30000

/-- Per-request oracle: is the API key configured, what the file read
(encodeImage) returns, what the provider call returns. -/
structure Env where
  apiKeySet : Bool
  encodeResult : Except String String
  api : ApiOutcome
deriving Repr

/-- The JSON body and status the /analyze handler responds with. -/
structure Response where
  httpStatus : Nat
  status : String
  response : Option String
  error : Option String
deriving DecidableEq, Repr

/-- JS truthiness default on the error message. -/
def errorMessageOr (msg : String) : String :=
  if msg = "" then "An error occurred during analysis" else msg

/-- The catch block of the /analyze handler: upstream status passthrough
first, then the timeout code, then the file-type message probe, else 500. -/
def catchResponse (msg : String) (responseStatus : Option Nat)
    (code : Option String) : Response :=
  match responseStatus with
  | some s => ⟨s, "error", none, some (errorMessageOr msg)⟩
  | none =>
    if code = some "ECONNABORTED" then
      ⟨504, "error", none, some "Request timeout. Please try again."⟩
    else if hasSubstr "file type".data msg.data then
      ⟨415, "error", none, some (errorMessageOr msg)⟩
    else ⟨500, "error", none, some (errorMessageOr msg)⟩

/-- The /analyze handler (try / catch / finally).  The second component
lists the cleanupFile deletions performed; filePath is only assigned once
a file exists, so the no-file branch deletes nothing. -/
def handler (file? : Option FileRec) (env : Env) : Response × List String :=
  match file? with
  | none => (catchResponse "No image file provided" none none, [])
  | some f =>
    let cleanups := [f.path]
    match env.encodeResult with
    | .error m => (catchResponse ("Error encoding image: " ++ m) none none, cleanups)
    | .ok _ =>
      if env.apiKeySet then
        match env.api with
        | .ok content => (⟨200, "success", some content, none⟩, cleanups)
        | .err rs code msg => (catchResponse msg rs code, cleanups)
      else (catchResponse "OpenAI API key not configured" none none, cleanups)

/-- Did the try block throw (equivalently: did any stage after the upload
middleware fail)? -/
def throws (file? : Option FileRec) (env : Env) : Bool :=
  match file? with
  | none => true
  | some _ =>
    match env.encodeResult with
    | .error _ => true
    | .ok _ =>
      if env.apiKeySet then
        match env.api with
        | .ok _ => false
        | .err _ _ _ => true
      else true

end AnalyzeServer

namespace UploadServer

/-- The error detection list analyzeImage builds in its catch. -/
def errDetections (msg : String) : Js :=
  .arr [.obj [("label", .str ("Error: " ++ msg)), ("confidence", .num jnumZero)]]

/-- analyzeImage of src/server.js: every failure (file read or provider)
is swallowed into an error-labelled detection list; on success the raw
model text goes through the extractor. -/
def analyzeImage (enc : Except String String) (api : ApiOutcome) : ExtractResult :=
  match enc with
  | .error m => .value (errDetections m)
  | .ok _ =>
    match api with
    | .err _ _ m => .value (errDetections m)
    | .ok content => extractJsonFromResponse content

/-- The JSON body and status the /upload handler responds with. -/
structure Response where
  httpStatus : Nat
  message : Option String
  file : Option FileRec
  objects : Option ExtractResult
  error : Option String
deriving Repr

/-- The /upload handler: 400 when multer delivered no file, otherwise a
200 success body carrying the multer file object verbatim plus the
detections; nothing in it ever deletes the stored file (second component:
deletions performed, always empty). -/
def handler (file? : Option FileRec) (enc : Except String String)
    (api : ApiOutcome) : Response × List String :=
  match file? with
  | none => (⟨400, none, none, none, some "No file uploaded"⟩, [])
  | some f =>
    (⟨200, some "File uploaded and analyzed successfully", some f,
      some (analyzeImage enc api), none⟩, [])

end UploadServer

end WorldLab

namespace WorldLab

/-! Shared facts about the pipeline models. -/

/-- The extractor agrees, stage by stage, with the layered-fallback
description (with the corrected final stage). -/
theorem extract_eq_layered (text : String) :
    extractJsonFromResponse text = extractLayered text := by
  unfold extractJsonFromResponse extractLayered extractStage1 extractStage2 extractStage3
  cases h1 : jsonParse text with
  | some j => rfl
  | none =>
    cases h2 : jsonParse (jsTrim (stripFences text)) with
    | some j => rfl
    | none =>
      cases h3 : arrayMatch text.data with
      | none => rfl
      | some m => cases h4 : jsonParse (String.mk m) <;> simp [h4]

/-- Every branch of the /analyze catch block reports body status error. -/
theorem catchResponse_status (msg : String) (rs : Option Nat) (code : Option String) :
    (AnalyzeServer.catchResponse msg rs code).status = "error" := by
  unfold AnalyzeServer.catchResponse
  rcases rs with _ | s
  · by_cases h1 : code = some "ECONNABORTED"
    · simp [h1]
    · by_cases h2 : hasSubstr "file type".data msg.data <;> simp [h1, h2]
  · rfl

/-- A 2 KB PNG upload as multer records it. -/
def catFile : FileRec :=
  ⟨"image", "cat.png", "image/png", "uploads/1700000000000.png", 2048⟩

/-- A file part with an allowed MIME type but a disallowed extension. -/
def mislabeledTxt : FileRec :=
  ⟨"image", "photo.txt", "image/png", "uploads/photo.txt", 100⟩

/-! Claim theorems. -/

/-- C1: the claim says the extractor always returns a list of Detections
and never raises.  It never raises, but on the empty string (an input the
claim names explicitly) and on bracket-free prose every parse stage fails,
no bracketed match exists, and control falls off the end of the function:
the extractor returns the JS value undefined, not a detection list. -/
theorem c1_extractor_returns_undefined_on_empty :
    extractJsonFromResponse "" = ExtractResult.undefined ∧
      extractJsonFromResponse "I see a cat and a dog." = ExtractResult.undefined :=
  ⟨rfl, rfl⟩

/-- C2 counterexample: a fully successful /upload request deletes nothing
(the deletions list is empty), so the uploaded temporary file outlives the
request, contradicting the claim for the /upload variant. -/
theorem c2_upload_success_deletes_nothing :
    (UploadServer.handler (some catFile) (.ok "b64") (.ok "[]")).2 = [] ∧
      (UploadServer.handler (some catFile) (.ok "b64") (.ok "[]")).1.httpStatus = 200 :=
  ⟨rfl, rfl⟩

/-- C2 (amended): in the /analyze variant the stored file is deleted
exactly once in every branch, after the response is determined; in the
/upload variant the handler never deletes the stored file. -/
theorem c2_cleanup_exactly_once_analyze_never_upload :
    (∀ (f : FileRec) (env : AnalyzeServer.Env),
        (AnalyzeServer.handler (some f) env).2 = [f.path]) ∧
      (∀ (file? : Option FileRec) (enc : Except String String) (api : ApiOutcome),
        (UploadServer.handler file? enc api).2 = []) := by
  constructor
  · rintro f ⟨k, enc, api⟩
    cases enc with
    | error m => rfl
    | ok b =>
      cases k with
      | false => rfl
      | true => cases api <;> rfl
  · rintro file? enc api
    cases file? <;> rfl

/-- C3 counterexample: a part whose declared MIME type is in the allow-set
but whose extension is not is rejected by the /upload variant's
fileFilter, which tests only the filename; the claimed MIME-or-extension
acceptance fails there. -/
theorem c3_upload_filter_rejects_allowed_mime :
    AnalyzeServer.allowedMimeTypes.contains mislabeledTxt.mimetype = true ∧
      UploadServer.fileFilter mislabeledTxt = .error "Only image files are allowed!" :=
  ⟨rfl, rfl⟩

/-- C3 (amended): the /analyze variant's fileFilter accepts exactly when
the normalized MIME type or the lowercased extension is allowed and
rejects with the diagnostic invalid-file-type error when both checks
fail; the /upload variant's fileFilter accepts exactly when the filename
ends with an allowed extension, ignoring the MIME type. -/
theorem c3_fileFilter_policy :
    (∀ f : FileRec, AnalyzeServer.fileFilter f = .ok () ↔
        (AnalyzeServer.isValidMimeType f || AnalyzeServer.isValidExtension f) = true) ∧
      (∀ f : FileRec, AnalyzeServer.isValidMimeType f = false →
        AnalyzeServer.isValidExtension f = false →
        AnalyzeServer.fileFilter f = .error (AnalyzeServer.invalidTypeMessage f)) ∧
      (∀ f : FileRec, UploadServer.fileFilter f = .ok () ↔
        UploadServer.nameMatches f.originalname = true) := by
  refine ⟨fun f => ?_, fun f h1 h2 => ?_, fun f => ?_⟩
  · unfold AnalyzeServer.fileFilter
    by_cases h : (AnalyzeServer.isValidMimeType f || AnalyzeServer.isValidExtension f) = true
    · simp [h]
    · simp [h]
  · unfold AnalyzeServer.fileFilter
    simp [h1, h2]
  · unfold UploadServer.fileFilter
    by_cases h : UploadServer.nameMatches f.originalname = true
    · simp [h]
    · simp [h]

/-- Witness for the amended C3 theorem at a concrete part failing both
checks. -/
theorem c3_fileFilter_policy_witness :
    AnalyzeServer.fileFilter ⟨"image", "notes.pdf", "text/plain", "uploads/notes.pdf", 5⟩ =
      .error (AnalyzeServer.invalidTypeMessage
        ⟨"image", "notes.pdf", "text/plain", "uploads/notes.pdf", 5⟩) :=
  c3_fileFilter_policy.2.1 _ (by rfl) (by rfl)

/-- C4 counterexample: in the /upload variant a provider failure after
validation is swallowed by analyzeImage, and the handler responds 200
with the success message and no error field — not an error-status
response. -/
theorem c4_upload_post_validation_failure_still_success :
    (UploadServer.handler (some catFile) (.ok "b64")
        (.err (some 500) none "Provider exploded")).1.httpStatus = 200 ∧
      (UploadServer.handler (some catFile) (.ok "b64")
        (.err (some 500) none "Provider exploded")).1.message =
        some "File uploaded and analyzed successfully" ∧
      (UploadServer.handler (some catFile) (.ok "b64")
        (.err (some 500) none "Provider exploded")).1.error = none :=
  ⟨rfl, rfl, rfl⟩

/-- C4 (amended): in the /analyze variant the response body status is
error exactly when some stage of the handler threw, and success exactly
otherwise; in the /upload variant every request with a file gets HTTP
200, whatever happened after validation. -/
theorem c4_error_status_iff_throw :
    (∀ (file? : Option FileRec) (env : AnalyzeServer.Env),
        ((AnalyzeServer.handler file? env).1.status = "error" ↔
          AnalyzeServer.throws file? env = true) ∧
        ((AnalyzeServer.handler file? env).1.status = "success" ↔
          AnalyzeServer.throws file? env = false)) ∧
      (∀ (f : FileRec) (enc : Except String String) (api : ApiOutcome),
        (UploadServer.handler (some f) enc api).1.httpStatus = 200) := by
  constructor
  · rintro file? ⟨k, enc, api⟩
    cases file? with
    | none => simp [AnalyzeServer.handler, AnalyzeServer.throws, catchResponse_status]
    | some f =>
      cases enc with
      | error m => simp [AnalyzeServer.handler, AnalyzeServer.throws, catchResponse_status]
      | ok b =>
        cases k with
        | false => simp [AnalyzeServer.handler, AnalyzeServer.throws, catchResponse_status]
        | true =>
          cases api with
          | ok content => simp [AnalyzeServer.handler, AnalyzeServer.throws]
          | err rs code msg =>
            simp [AnalyzeServer.handler, AnalyzeServer.throws, catchResponse_status]
  · intro f enc api
    rfl

/-- C5 counterexample: an upstream 429 in the /upload variant is converted
into an error-labelled detection list and the pipeline responds HTTP 200,
not 429. -/
theorem c5_upload_swallows_provider_status :
    (UploadServer.handler (some catFile) (.ok "b64")
        (.err (some 429) none "Request failed with status code 429")).1.httpStatus = 200 ∧
      (UploadServer.handler (some catFile) (.ok "b64")
        (.err (some 429) none "Request failed with status code 429")).1.objects =
        some (.value (UploadServer.errDetections "Request failed with status code 429")) :=
  ⟨rfl, rfl⟩

/-- C5 (amended): the /analyze variant passes any upstream response
status through verbatim as its own HTTP status; the /upload variant
responds 200 regardless of the upstream status. -/
theorem c5_status_passthrough_analyze_only :
    (∀ (f : FileRec) (b64 : String) (s : Nat) (code : Option String) (msg : String),
        (AnalyzeServer.handler (some f)
          ⟨true, .ok b64, .err (some s) code msg⟩).1.httpStatus = s) ∧
      (∀ (f : FileRec) (b64 : String) (s : Nat) (code : Option String) (msg : String),
        (UploadServer.handler (some f) (.ok b64)
          (.err (some s) code msg)).1.httpStatus = 200) :=
  ⟨fun _ _ _ _ _ => rfl, fun _ _ _ _ _ => rfl⟩

/-- C6: a timed-out inference call (the axios abort code with no upstream
response) makes the /analyze variant respond HTTP 504 and still delete
the stored file exactly once; the configured timeout is 30 seconds. -/
theorem c6_timeout_504_and_cleanup :
    (∀ (f : FileRec) (b64 : String) (msg : String),
        (AnalyzeServer.handler (some f)
          ⟨true, .ok b64, .err none (some "ECONNABORTED") msg⟩).1.httpStatus = 504 ∧
        (AnalyzeServer.handler (some f)
          ⟨true, .ok b64, .err none (some "ECONNABORTED") msg⟩).2 = [f.path]) ∧
      AnalyzeServer.inferenceTimeoutMs = 30000 :=
  ⟨fun _ _ _ => ⟨rfl, rfl⟩, rfl⟩

/-- C10: every /upload request that carries a file gets a 200 response
whose body contains the multer file object verbatim, including the
server-side storage path. -/
theorem c10_upload_exposes_file_metadata :
    ∀ (f : FileRec) (enc : Except String String) (api : ApiOutcome),
      (UploadServer.handler (some f) enc api).1.httpStatus = 200 ∧
      (UploadServer.handler (some f) enc api).1.file = some f ∧
      (UploadServer.handler (some f) enc api).1.file.map FileRec.path = some f.path :=
  fun _ _ _ => ⟨rfl, rfl, rfl⟩

/-- C7 counterexample: on bracket-free prose all three parse stages fail
and the extractor returns undefined, not the sentinel list the claim's
final stage prescribes. -/
theorem c7_no_bracket_gives_undefined_not_sentinel :
    extractJsonFromResponse "The image shows a cat." = ExtractResult.undefined ∧
      ExtractResult.undefined ≠ ExtractResult.value sentinelJs :=
  ⟨rfl, fun h => ExtractResult.noConfusion h⟩

/-- A fenced model reply: direct parse fails, fence stripping succeeds. -/
def fenceSample : String :=
  "```json\n[\x7b\"label\":\"car\",\"confidence\":0.95\x7d]\n```"

def fenceSampleJs : Js :=
  .arr [.obj [("label", .str "car"), ("confidence", .num ⟨false, 95, 2, 0⟩)]]

/-- C7 (amended): extraction is exactly the layered fallback — whole-text
parse, then fence-stripped parse, then parse of the greedy bracketed
match — first success winning, except that the sentinel is produced only
when a bracketed match exists and fails to parse (with no bracketed match
the result is undefined).  On fenced valid JSON the first stage fails and
the fence-stripping stage succeeds. -/
theorem c7_layered_fallback :
    (∀ text : String, extractJsonFromResponse text = extractLayered text) ∧
      extractStage1 fenceSample = none ∧
      extractStage2 fenceSample = some fenceSampleJs ∧
      extractJsonFromResponse fenceSample = .value fenceSampleJs :=
  ⟨extract_eq_layered, rfl, rfl, rfl⟩

/-- C8 counterexample: the text 5 parses directly, so extraction returns a
bare JSON number — neither a list of well-formed Detections nor the
sentinel, contradicting the claimed dichotomy. -/
theorem c8_extraction_returns_bare_number :
    extractJsonFromResponse "5" = .value (Js.num ⟨false, 5, 0, 0⟩) ∧
      isDetectionListJs (Js.num ⟨false, 5, 0, 0⟩) = false ∧
      Js.num ⟨false, 5, 0, 0⟩ ≠ sentinelJs :=
  ⟨rfl, rfl, fun h => Js.noConfusion h⟩

/-- C8 (amended): extraction never validates shape — it returns whatever
JSON value the first successful stage parsed (which need not be a
detection list), returns the sentinel exactly when every stage fails on a
text that still contains a bracketed match, and returns undefined when
every stage fails with no bracketed match. -/
theorem c8_extraction_unvalidated :
    ∀ text : String,
      extractJsonFromResponse text = .undefined ∨
      extractJsonFromResponse text = .value sentinelJs ∨
      ∃ j, extractJsonFromResponse text = .value j ∧
        (extractStage1 text = some j ∨ extractStage2 text = some j ∨
          extractStage3 text = some (some j)) := by
  intro text
  unfold extractJsonFromResponse extractStage1 extractStage2 extractStage3
  cases h1 : jsonParse text with
  | some j => exact .inr (.inr ⟨j, rfl, .inl rfl⟩)
  | none =>
    cases h2 : jsonParse (jsTrim (stripFences text)) with
    | some j => exact .inr (.inr ⟨j, rfl, .inr (.inl rfl)⟩)
    | none =>
      cases h3 : arrayMatch text.data with
      | none => exact .inl rfl
      | some m =>
        cases h4 : jsonParse (String.mk m) with
        | some j => refine .inr (.inr ⟨j, ?_, .inr (.inr ?_)⟩) <;> simp [h4]
        | none => refine .inr (.inl ?_); simp [h4]

end WorldLab

namespace WorldLab

/-! Digit-run facts used by the number round-trip. -/

theorem digitChar_toNat (n : Nat) (h : n < 10) : (digitChar n).toNat = 48 + n := by
  interval_cases n <;> decide

theorem isDigitC_digitChar (n : Nat) (h : n < 10) : isDigitC (digitChar n) = true := by
  interval_cases n <;> decide

theorem natChars_all_digits (n : Nat) : ∀ c ∈ natChars n, isDigitC c = true := by
  induction n using Nat.strong_induction_on with
  | _ n ih =>
    unfold natChars
    by_cases h : n < 10
    · simp only [dif_pos h, List.mem_singleton]
      rintro c rfl
      exact isDigitC_digitChar n h
    · simp only [dif_neg h, List.mem_append, List.mem_singleton]
      rintro c (hc | rfl)
      · exact ih (n / 10) (Nat.div_lt_self (by omega) (by omega)) c hc
      · exact isDigitC_digitChar _ (Nat.mod_lt _ (by omega))

theorem natChars_ne_nil (n : Nat) : natChars n ≠ [] := by
  unfold natChars
  by_cases h : n < 10 <;> simp [h]

theorem natChars_cons (n : Nat) : ∃ d ds, natChars n = d :: ds :=
  List.exists_cons_of_ne_nil (natChars_ne_nil n)

theorem natChars_head_ne_zero (n : Nat) (h1 : 1 ≤ n) :
    ∀ d ds, natChars n = d :: ds → d ≠ '0' := by
  induction n using Nat.strong_induction_on with
  | _ n ih =>
    intro d ds heq
    unfold natChars at heq
    by_cases h : n < 10
    · rw [dif_pos h] at heq
      injection heq with hd _
      subst hd
      interval_cases n <;> decide
    · rw [dif_neg h] at heq
      obtain ⟨d2, ds2, h2⟩ := natChars_cons (n / 10)
      rw [h2, List.cons_append] at heq
      injection heq with hd _
      subst hd
      exact ih (n / 10) (Nat.div_lt_self (by omega) (by omega)) (by omega) d2 ds2 h2

theorem natChars_no_leading_zero (n : Nat) :
    ∀ d ds, natChars n = d :: ds → d = '0' → ds = [] := by
  intro d ds heq hd
  rcases Nat.eq_zero_or_pos n with rfl | hpos
  · have : natChars 0 = ['0'] := by rw [natChars]; rfl
    rw [this] at heq
    injection heq with _ h2
    exact h2.symm
  · exact absurd hd (natChars_head_ne_zero n hpos d ds heq)

theorem foldl_step_natChars (n : Nat) :
    ∀ a : Nat, (natChars n).foldl (fun a c => a * 10 + (c.toNat - 48)) a
      = a * 10 ^ (natChars n).length + n := by
  induction n using Nat.strong_induction_on with
  | _ n ih =>
    intro a
    unfold natChars
    by_cases h : n < 10
    · simp only [dif_pos h, List.foldl_cons, List.foldl_nil, List.length_singleton]
      rw [digitChar_toNat n h]
      omega
    · simp only [dif_neg h, List.foldl_append, List.foldl_cons, List.foldl_nil,
        List.length_append, List.length_singleton]
      rw [ih (n / 10) (Nat.div_lt_self (by omega) (by omega)) a]
      rw [digitChar_toNat _ (Nat.mod_lt _ (by omega))]
      have hdm := Nat.div_add_mod n 10
      have hpow : 10 ^ ((natChars (n / 10)).length + 1)
          = 10 ^ (natChars (n / 10)).length * 10 := by rw [pow_succ]
      rw [hpow]
      ring_nf
      omega

theorem digitsVal_natChars (n : Nat) : digitsVal (natChars n) = n := by
  have := foldl_step_natChars n 0
  simpa [digitsVal] using this

theorem foldl_step_replicate_zero (k : Nat) :
    ∀ a : Nat, (List.replicate k '0').foldl (fun a c => a * 10 + (c.toNat - 48)) a
      = a * 10 ^ k := by
  induction k with
  | zero => intro a; simp
  | succ k ih =>
    intro a
    rw [List.replicate_succ, List.foldl_cons, ih]
    have : ('0'.toNat - 48) = 0 := by decide
    rw [this, pow_succ]
    ring

theorem natChars_length_le (n : Nat) :
    ∀ k : Nat, 1 ≤ k → n < 10 ^ k → (natChars n).length ≤ k := by
  induction n using Nat.strong_induction_on with
  | _ n ih =>
    intro k hk h
    unfold natChars
    by_cases h10 : n < 10
    · simp only [dif_pos h10, List.length_singleton]
      exact hk
    · simp only [dif_neg h10, List.length_append, List.length_singleton]
      have hk2 : 2 ≤ k := by
        rcases Nat.lt_or_ge k 2 with hlt | hge
        · exfalso
          have : k = 1 := by omega
          subst this
          simp at h
          omega
        · exact hge
      have hlt : n / 10 < 10 ^ (k - 1) := by
        rw [Nat.div_lt_iff_lt_mul (by omega)]
        have : 10 ^ (k - 1) * 10 = 10 ^ k := by
          rw [← pow_succ]
          congr 1
          omega
        omega
      have := ih (n / 10) (Nat.div_lt_self (by omega) (by omega)) (k - 1) (by omega) hlt
      omega

theorem padZeros_all_digits (k : Nat) (ds : List Char)
    (h : ∀ c ∈ ds, isDigitC c = true) :
    ∀ c ∈ padZeros k ds, isDigitC c = true := by
  intro c hc
  rw [padZeros, List.mem_append] at hc
  rcases hc with hc | hc
  · rw [List.eq_of_mem_replicate hc]
    decide
  · exact h c hc

theorem padZeros_length (k : Nat) (ds : List Char) (h : ds.length ≤ k) :
    (padZeros k ds).length = k := by
  simp [padZeros]
  omega

theorem padZeros_ne_nil (k : Nat) (ds : List Char) (h : ds ≠ []) :
    padZeros k ds ≠ [] := by
  simp [padZeros, h]

theorem foldl_step_padZeros (k n : Nat) (hlen : (natChars n).length ≤ k) (a : Nat) :
    (padZeros k (natChars n)).foldl (fun a c => a * 10 + (c.toNat - 48)) a
      = a * 10 ^ k + n := by
  rw [padZeros, List.foldl_append, foldl_step_replicate_zero, foldl_step_natChars]
  have hexp : k - (natChars n).length + (natChars n).length = k := by omega
  rw [mul_assoc, ← pow_add, hexp]

end WorldLab

namespace WorldLab

/-! Number round-trip. -/

theorem numBoundary_head (c : Char) (t : List Char) (h : numBoundary (c :: t) = true) :
    isDigitC c = false ∧ c ≠ '.' ∧ c ≠ 'e' ∧ c ≠ 'E' := by
  simp only [numBoundary, Bool.not_eq_true', Bool.or_eq_false_iff, beq_eq_false_iff_ne] at h
  exact ⟨h.1.1.1, h.1.1.2, h.1.2, h.2⟩

theorem numBoundary_head_ne (cs : List Char) (hb : numBoundary cs = true) :
    cs.head? ≠ some '.' ∧ cs.head? ≠ some 'e' ∧ cs.head? ≠ some 'E' := by
  cases cs with
  | nil => simp
  | cons c t =>
    obtain ⟨-, h2, h3, h4⟩ := numBoundary_head c t hb
    simp [h2, h3, h4]

theorem splitDigits_not_digit (c : Char) (t : List Char) (h : isDigitC c = false) :
    splitDigits (c :: t) = ([], c :: t) := by
  simp [splitDigits, h]

theorem splitDigits_boundary (cs : List Char) (h : numBoundary cs = true) :
    splitDigits cs = ([], cs) := by
  cases cs with
  | nil => rfl
  | cons c t => exact splitDigits_not_digit c t (numBoundary_head c t h).1

theorem splitDigits_append (ds rest : List Char) (hds : ∀ c ∈ ds, isDigitC c = true)
    (hrest : splitDigits rest = ([], rest)) :
    splitDigits (ds ++ rest) = (ds, rest) := by
  induction ds with
  | nil => simpa using hrest
  | cons c t ih =>
    have hc : isDigitC c = true := hds c (List.mem_cons_self ..)
    rw [List.cons_append]
    simp [splitDigits, hc, ih fun x hx => hds x (List.mem_cons_of_mem _ hx)]

theorem ne_of_toNat_ne (c d : Char) (h : c.toNat ≠ d.toNat) : c ≠ d :=
  fun he => h (he ▸ rfl)

theorem isDigitC_spec (c : Char) (h : isDigitC c = true) :
    48 ≤ c.toNat ∧ c.toNat ≤ 57 := by
  simpa [isDigitC] using h

theorem digit_ne_chars (c : Char) (h : isDigitC c = true) :
    c ≠ '-' ∧ c ≠ '.' ∧ c ≠ 'e' ∧ c ≠ 'E' ∧ c ≠ '+' ∧ c ≠ '"' ∧ c ≠ '[' ∧
      c ≠ '\x7b' ∧ c ≠ 'n' ∧ c ≠ 't' ∧ c ≠ 'f' ∧ isWsC c = false := by
  obtain ⟨h1, h2⟩ := isDigitC_spec c h
  refine ⟨?_, ?_, ?_, ?_, ?_, ?_, ?_, ?_, ?_, ?_, ?_, ?_⟩
  · exact ne_of_toNat_ne _ _ (by rw [(by decide : ('-').toNat = 45)]; omega)
  · exact ne_of_toNat_ne _ _ (by rw [(by decide : ('.').toNat = 46)]; omega)
  · exact ne_of_toNat_ne _ _ (by rw [(by decide : ('e').toNat = 101)]; omega)
  · exact ne_of_toNat_ne _ _ (by rw [(by decide : ('E').toNat = 69)]; omega)
  · exact ne_of_toNat_ne _ _ (by rw [(by decide : ('+').toNat = 43)]; omega)
  · exact ne_of_toNat_ne _ _ (by rw [(by decide : ('"').toNat = 34)]; omega)
  · exact ne_of_toNat_ne _ _ (by rw [(by decide : ('[').toNat = 91)]; omega)
  · exact ne_of_toNat_ne _ _ (by rw [(by decide : ('\x7b').toNat = 123)]; omega)
  · exact ne_of_toNat_ne _ _ (by rw [(by decide : ('n').toNat = 110)]; omega)
  · exact ne_of_toNat_ne _ _ (by rw [(by decide : ('t').toNat = 116)]; omega)
  · exact ne_of_toNat_ne _ _ (by rw [(by decide : ('f').toNat = 102)]; omega)
  · simp only [isWsC]
    simp only [Bool.or_eq_false_iff, decide_eq_false_iff_not]
    omega

theorem parseIntPart_natChars (q : Nat) (rest : List Char)
    (hrest : splitDigits rest = ([], rest)) :
    parseIntPart (natChars q ++ rest) = some (natChars q, rest) := by
  obtain ⟨d, ds, hq⟩ := natChars_cons q
  have hno : ¬(d = '0' ∧ ds ≠ []) := by
    rintro ⟨rfl, hne⟩
    exact hne (natChars_no_leading_zero q _ _ hq rfl)
  simp only [parseIntPart, splitDigits_append _ _ (natChars_all_digits q) hrest]
  rw [hq]
  simp only [if_neg hno]

theorem parseFracPart_no_dot (cs : List Char) (h : cs.head? ≠ some '.') :
    parseFracPart cs = some ([], cs) := by
  simp [parseFracPart, h]

theorem parseFracPart_pad (f r : Nat) (rest : List Char)
    (hrest : splitDigits rest = ([], rest)) :
    parseFracPart ('.' :: (padZeros f (natChars r) ++ rest)) =
      some (padZeros f (natChars r), rest) := by
  unfold parseFracPart
  simp only [List.head?_cons, List.tail_cons]
  rw [if_pos trivial]
  rw [splitDigits_append _ _ (padZeros_all_digits f _ (natChars_all_digits r)) hrest]
  simp only [if_neg (padZeros_ne_nil f _ (natChars_ne_nil r))]

theorem parseExpPart_none (cs : List Char) (h1 : cs.head? ≠ some 'e')
    (h2 : cs.head? ≠ some 'E') :
    parseExpPart cs = some (0, cs) := by
  simp [parseExpPart, h1, h2]

theorem parseExpPart_print (e : Int) (rest : List Char)
    (hrest : splitDigits rest = ([], rest)) :
    parseExpPart ('e' :: (intChars e ++ rest)) = some (e, rest) := by
  unfold parseExpPart
  simp only [List.head?_cons, List.tail_cons]
  rw [if_pos (Or.inl trivial)]
  by_cases hneg : e < 0
  · rw [intChars, if_pos hneg, List.cons_append, List.head?_cons, List.tail_cons]
    have hp : ¬((some '-' : Option Char) = some '+') := by decide
    rw [if_neg hp, if_pos rfl]
    rw [splitDigits_append _ _ (natChars_all_digits _) hrest]
    rw [if_neg (natChars_ne_nil _)]
    rw [digitsVal_natChars]
    have hval : -(e.natAbs : Int) = e := by omega
    rw [if_pos rfl, hval]
  · rw [intChars, if_neg hneg]
    obtain ⟨d, ds, hq⟩ := natChars_cons e.natAbs
    have hddig : isDigitC d = true := by
      have := natChars_all_digits e.natAbs
      rw [hq] at this
      exact this d (List.mem_cons_self ..)
    have hhead : (natChars e.natAbs ++ rest).head? = some d := by
      rw [hq]
      rfl
    have hp : ¬((natChars e.natAbs ++ rest).head? = some '+') := by
      rw [hhead]
      simpa using (digit_ne_chars d hddig).2.2.2.2.1
    have hm : ¬((natChars e.natAbs ++ rest).head? = some '-') := by
      rw [hhead]
      simpa using (digit_ne_chars d hddig).1
    rw [if_neg hp, if_neg hm]
    rw [splitDigits_append _ _ (natChars_all_digits _) hrest]
    rw [if_neg (natChars_ne_nil _)]
    rw [digitsVal_natChars]
    have hval : ((e.natAbs : Int) : Int) = e := by omega
    rw [if_neg (by decide : ¬(false = true)), hval]

end WorldLab

namespace WorldLab

theorem parseNumber_print (n : JNum) (rest : List Char) (hb : numBoundary rest = true) :
    parseNumber (printJNum n ++ rest) = some (n, rest) := by
  obtain ⟨neg, m, f, e⟩ := n
  have hrest : splitDigits rest = ([], rest) := splitDigits_boundary rest hb
  obtain ⟨hdot, hee, hEE⟩ := numBoundary_head_ne rest hb
  set q := m / 10 ^ f with hqdef
  set fracS : List Char :=
    if f = 0 then [] else '.' :: padZeros f (natChars (m % 10 ^ f)) with hfrac
  set expS : List Char := if e = 0 then [] else 'e' :: intChars e with hexp
  set fracDs : List Char :=
    if f = 0 then [] else padZeros f (natChars (m % 10 ^ f)) with hfds
  have hsplitExp : splitDigits (expS ++ rest) = ([], expS ++ rest) := by
    by_cases he : e = 0
    · simpa [hexp, he] using hrest
    · rw [hexp, if_neg he, List.cons_append]
      exact splitDigits_not_digit _ _ (by decide)
  have hsplit1 : splitDigits (fracS ++ (expS ++ rest)) = ([], fracS ++ (expS ++ rest)) := by
    by_cases hf : f = 0
    · simpa [hfrac, hf] using hsplitExp
    · rw [hfrac, if_neg hf, List.cons_append]
      exact splitDigits_not_digit _ _ (by decide)
  have hip : parseIntPart (natChars q ++ (fracS ++ (expS ++ rest)))
      = some (natChars q, fracS ++ (expS ++ rest)) :=
    parseIntPart_natChars _ _ hsplit1
  have hexphead : (expS ++ rest).head? ≠ some '.' := by
    by_cases he : e = 0
    · rw [hexp, if_pos he, List.nil_append]
      exact hdot
    · rw [hexp, if_neg he, List.cons_append, List.head?_cons]
      decide
  have hfp : parseFracPart (fracS ++ (expS ++ rest)) = some (fracDs, expS ++ rest) := by
    by_cases hf : f = 0
    · rw [hfds, if_pos hf, hfrac, if_pos hf, List.nil_append]
      exact parseFracPart_no_dot _ hexphead
    · rw [hfds, if_neg hf, hfrac, if_neg hf, List.cons_append]
      exact parseFracPart_pad f _ _ hsplitExp
  have hep : parseExpPart (expS ++ rest) = some (e, rest) := by
    by_cases he : e = 0
    · rw [hexp, if_pos he, List.nil_append, he]
      exact parseExpPart_none rest hee hEE
    · rw [hexp, if_neg he, List.cons_append]
      exact parseExpPart_print e rest hrest
  have hfdslen : fracDs.length = f := by
    by_cases hf : f = 0
    · rw [hfds, if_pos hf, hf]
      rfl
    · rw [hfds, if_neg hf]
      exact padZeros_length f _
        (natChars_length_le _ f (by omega) (Nat.mod_lt _ (pow_pos (by omega) f)))
  have hmant : digitsVal (natChars q ++ fracDs) = m := by
    by_cases hf : f = 0
    · rw [hfds, if_pos hf, List.append_nil, digitsVal_natChars, hqdef, hf, pow_zero,
        Nat.div_one]
    · rw [hfds, if_neg hf, digitsVal, List.foldl_append, foldl_step_natChars,
        foldl_step_padZeros f _
          (natChars_length_le _ f (by omega) (Nat.mod_lt _ (pow_pos (by omega) f)))]
      simp only [zero_mul, zero_add]
      rw [hqdef, mul_comm]
      exact Nat.div_add_mod m (10 ^ f)
  have harg : printJNum ⟨neg, m, f, e⟩ ++ rest =
      (if neg then ['-'] else []) ++ (natChars q ++ (fracS ++ (expS ++ rest))) := by
    simp [printJNum, numBody, List.append_assoc]
  rw [harg]
  cases neg with
  | true =>
    rw [if_pos rfl, List.singleton_append]
    unfold parseNumber
    have hc : (('-' :: (natChars q ++ (fracS ++ (expS ++ rest)))).head? = some '-') :=
      rfl
    rw [if_pos hc]
    simp only [List.tail_cons, hip, hfp, hep]
    rw [hmant, hfdslen]
  | false =>
    rw [if_neg (by decide : ¬(false = true)), List.nil_append]
    obtain ⟨d, ds, hq⟩ := natChars_cons q
    have hddig : isDigitC d = true := by
      have := natChars_all_digits q
      rw [hq] at this
      exact this d (List.mem_cons_self ..)
    have hh : (natChars q ++ (fracS ++ (expS ++ rest))).head? = some d := by
      rw [hq]
      rfl
    have hhne : ¬((natChars q ++ (fracS ++ (expS ++ rest))).head? = some '-') := by
      rw [hh]
      simpa using (digit_ne_chars d hddig).1
    unfold parseNumber
    rw [if_neg hhne]
    simp only [hip, hfp, hep]
    rw [hmant, hfdslen]

end WorldLab

namespace WorldLab

/-! String escaping round-trip. -/

theorem escapeChar_length_pos (c : Char) : 1 ≤ (escapeChar c).length := by
  unfold escapeChar
  repeat' split
  all_goals simp

theorem escBody_length_ge (s : List Char) : s.length ≤ (escBody s).length := by
  induction s with
  | nil => simp [escBody]
  | cons c cs ih =>
    simp only [escBody, List.length_append, List.length_cons]
    have := escapeChar_length_pos c
    omega

theorem hexValC_hexDigitChar (n : Nat) (h : n < 16) : hexValC (hexDigitChar n) = some n := by
  interval_cases n <;> decide

theorem parseStringBody_escapeChar (c : Char) (fuel : Nat) (rest : List Char) :
    parseStringBody (fuel + 1) (escapeChar c ++ rest) =
      (parseStringBody fuel rest).map fun p => (c :: p.1, p.2) := by
  unfold escapeChar
  split_ifs with h1 h2 h3 h4 h5 h6 h7 h8
  · subst h1; rfl
  · subst h2; rfl
  · subst h3; rfl
  · subst h4; rfl
  · subst h5; rfl
  · subst h6; rfl
  · subst h7; rfl
  · -- control character rendered as a unicode escape
    have ha : c.toNat / 16 < 16 := by omega
    have hb : c.toNat % 16 < 16 := by omega
    simp only [List.cons_append, List.nil_append]
    simp only [parseStringBody]
    rw [hexValC_hexDigitChar _ ha, hexValC_hexDigitChar _ hb]
    have h0 : hexValC '0' = some 0 := rfl
    have harith : c.toNat / 16 * 16 + c.toNat % 16 = c.toNat := by omega
    simp [h0, harith, Char.ofNat_toNat]
  · -- plain character
    rw [List.singleton_append]
    simp only [parseStringBody]
    rw [if_neg h1, if_neg h2, if_neg h8]

theorem parseStringBody_escBody (s : List Char) :
    ∀ (fuel : Nat) (rest : List Char), s.length + 1 ≤ fuel →
      parseStringBody fuel (escBody s ++ '"' :: rest) = some (s, rest) := by
  induction s with
  | nil =>
    intro fuel rest hfuel
    obtain ⟨k, rfl⟩ : ∃ k, fuel = k + 1 := ⟨fuel - 1, by omega⟩
    rfl
  | cons c cs ih =>
    intro fuel rest hfuel
    obtain ⟨k, rfl⟩ : ∃ k, fuel = k + 1 := ⟨fuel - 1, by omega⟩
    rw [escBody, List.append_assoc, parseStringBody_escapeChar,
      ih k rest (by simpa using hfuel)]
    rfl

theorem parseStringTotal_escBody (s rest : List Char) :
    parseStringTotal (escBody s ++ '"' :: rest) = some (s, rest) := by
  unfold parseStringTotal
  apply parseStringBody_escBody
  have := escBody_length_ge s
  simp only [List.length_append, List.length_cons]
  omega

end WorldLab

namespace WorldLab

/-! Value-level round-trip. -/

theorem skipWs_cons_not_ws (c : Char) (t : List Char) (h : isWsC c = false) :
    skipWs (c :: t) = c :: t := by
  simp [skipWs, h]

theorem parseValue_succ (fuel : Nat) (cs : List Char) :
    parseValue (fuel + 1) cs = parseValueStep (parseValue fuel) fuel cs := rfl

theorem isPrefixOf_cons_of_ne (a b : Char) (as bs : List Char) (h : a ≠ b) :
    (a :: as).isPrefixOf (b :: bs) = false := by
  simp [List.isPrefixOf, h]

theorem parseValueStep_quote (rec : List Char → Option (Js × List Char)) (fuel : Nat)
    (t : List Char) :
    parseValueStep rec fuel ('"' :: t) =
      match parseStringTotal t with
      | some p => some (.str (String.mk p.1), p.2)
      | none => none := rfl

theorem parseValueStep_brace (rec : List Char → Option (Js × List Char)) (fuel : Nat)
    (t : List Char) :
    parseValueStep rec fuel ('\x7b' :: t) =
      match skipWs t with
      | '\x7d' :: r => some (.obj [], r)
      | t2 =>
        match parseMembersAux rec fuel t2 with
        | some p => some (.obj p.1, p.2)
        | none => none := rfl

theorem parseValueStep_bracket (rec : List Char → Option (Js × List Char)) (fuel : Nat)
    (t : List Char) :
    parseValueStep rec fuel ('[' :: t) =
      match skipWs t with
      | ']' :: r => some (.arr [], r)
      | t2 =>
        match parseListAux rec fuel t2 with
        | some p => some (.arr p.1, p.2)
        | none => none := rfl

theorem parseValueStep_number (rec : List Char → Option (Js × List Char)) (fuel : Nat)
    (c : Char) (t : List Char) (h : c = '-' ∨ isDigitC c = true) :
    parseValueStep rec fuel (c :: t) =
      match parseNumber (c :: t) with
      | some p => some (.num p.1, p.2)
      | none => none := by
  rcases h with rfl | hd
  · rfl
  · obtain ⟨hm, -, -, -, -, hq, hbk, hbc, hn, ht, hf, hws⟩ := digit_ne_chars c hd
    unfold parseValueStep litNull litTrue litFalse
    rw [skipWs_cons_not_ws _ _ hws]
    simp only [isPrefixOf_cons_of_ne 'n' c _ _ (Ne.symm hn),
      isPrefixOf_cons_of_ne 't' c _ _ (Ne.symm ht),
      isPrefixOf_cons_of_ne 'f' c _ _ (Ne.symm hf),
      Bool.false_eq_true, if_false]
    rw [if_neg hq, if_neg hbk, if_neg hbc]
    rw [if_pos (by simp [hd])]

theorem parseValue_str (s : String) (fuel : Nat) (rest : List Char) (h : 1 ≤ fuel) :
    parseValue fuel (escString s ++ rest) = some (.str s, rest) := by
  obtain ⟨k, rfl⟩ : ∃ k, fuel = k + 1 := ⟨fuel - 1, by omega⟩
  rw [parseValue_succ]
  have harg : escString s ++ rest = '"' :: (escBody s.data ++ '"' :: rest) := by
    simp [escString]
  rw [harg, parseValueStep_quote, parseStringTotal_escBody]

theorem parseValue_printJNum (n : JNum) (fuel : Nat) (rest : List Char) (h : 1 ≤ fuel)
    (hb : numBoundary rest = true) :
    parseValue fuel (printJNum n ++ rest) = some (.num n, rest) := by
  obtain ⟨k, rfl⟩ : ∃ k, fuel = k + 1 := ⟨fuel - 1, by omega⟩
  rw [parseValue_succ]
  by_cases hneg : n.neg = true
  · have harg : printJNum n ++ rest = '-' :: (numBody n.mant n.fracLen n.exp ++ rest) := by
      simp [printJNum, hneg]
    rw [harg, parseValueStep_number _ _ _ _ (.inl rfl), ← harg, parseNumber_print n rest hb]
  · obtain ⟨d, ds, hq⟩ := natChars_cons (n.mant / 10 ^ n.fracLen)
    have hddig : isDigitC d = true := by
      have := natChars_all_digits (n.mant / 10 ^ n.fracLen)
      rw [hq] at this
      exact this d (List.mem_cons_self ..)
    have harg : printJNum n ++ rest =
        d :: (ds ++
          ((if n.fracLen = 0 then []
            else '.' :: padZeros n.fracLen (natChars (n.mant % 10 ^ n.fracLen))) ++
            ((if n.exp = 0 then [] else 'e' :: intChars n.exp) ++ rest))) := by
      simp [printJNum, hneg, numBody, hq, List.append_assoc]
    rw [harg, parseValueStep_number _ _ _ _ (.inr hddig), ← harg, parseNumber_print n rest hb]

end WorldLab

namespace WorldLab

theorem parseMembersAux_det (d : Detection) (pf mf : Nat) (rest : List Char)
    (hpf : 1 ≤ pf) (hmf : 2 ≤ mf) :
    parseMembersAux (parseValue pf) mf (detMembers d ++ '\x7d' :: rest) =
      some ([("label", .str d.label), ("confidence", .num d.confidence)], rest) := by
  obtain ⟨k, rfl⟩ : ∃ k, mf = k + 1 + 1 := ⟨mf - 2, by omega⟩
  have hlab : parseValue pf (escString d.label ++
      ',' :: (escString "confidence" ++ ':' :: (printJNum d.confidence ++ '\x7d' :: rest))) =
      some (.str d.label,
        ',' :: (escString "confidence" ++ ':' :: (printJNum d.confidence ++ '\x7d' :: rest))) :=
    parseValue_str _ _ _ hpf
  have hnum : parseValue pf (printJNum d.confidence ++ '\x7d' :: rest) =
      some (.num d.confidence, '\x7d' :: rest) :=
    parseValue_printJNum _ _ _ hpf rfl
  simp only [detMembers, escString, List.append_assoc, List.cons_append, List.nil_append] at hlab hnum ⊢
  simp only [parseMembersAux]
  simp [skipWs, isWsC, parseStringTotal_escBody, hlab, hnum]

end WorldLab

namespace WorldLab

theorem parseValue_detObj (d : Detection) (fuel : Nat) (rest : List Char) (h : 3 ≤ fuel) :
    parseValue fuel (printDetObj d ++ rest) = some (detJs d, rest) := by
  obtain ⟨k, rfl⟩ : ∃ k, fuel = k + 2 + 1 := ⟨fuel - 3, by omega⟩
  rw [parseValue_succ]
  have harg : printDetObj d ++ rest = '\x7b' :: (detMembers d ++ '\x7d' :: rest) := by
    simp [printDetObj]
  rw [harg, parseValueStep_brace]
  obtain ⟨B, hB⟩ : ∃ B, detMembers d ++ '\x7d' :: rest = '"' :: B :=
    ⟨escBody "label".data ++ '"' ::
        (':' :: (escString d.label ++ ',' ::
          (escString "confidence" ++ ':' :: (printJNum d.confidence ++ '\x7d' :: rest)))),
      by simp [detMembers, escString, List.append_assoc]⟩
  have hmem := parseMembersAux_det d (k + 2) (k + 2) rest (by omega) (by omega)
  rw [hB] at hmem ⊢
  rw [skipWs_cons_not_ws _ _ (by decide)]
  show (match parseMembersAux (parseValue (k + 2)) (k + 2) ('"' :: B) with
    | some p => some (Js.obj p.1, p.2)
    | none => none) = some (detJs d, rest)
  rw [hmem]
  rfl

theorem printDetList_length_ge (d : Detection) (ds : List Detection) :
    ds.length + 1 ≤ (printDetList (d :: ds)).length := by
  induction ds generalizing d with
  | nil => simp [printDetList, printDetObj]
  | cons d2 ds2 ih =>
    have := ih d2
    simp only [printDetList, List.length_append, List.length_cons, printDetObj] at *
    omega

theorem parseListAux_dets (d : Detection) (ds : List Detection) :
    ∀ (pf lf : Nat) (rest : List Char), 3 ≤ pf → ds.length + 1 ≤ lf →
      parseListAux (parseValue pf) lf (printDetList (d :: ds) ++ ']' :: rest) =
        some ((d :: ds).map detJs, rest) := by
  induction ds generalizing d with
  | nil =>
    intro pf lf rest hpf hlf
    obtain ⟨k, rfl⟩ : ∃ k, lf = k + 1 := ⟨lf - 1, by omega⟩
    simp only [printDetList]
    simp only [parseListAux, parseValue_detObj d pf (']' :: rest) hpf]
    simp [skipWs, isWsC]
  | cons d2 ds2 ih =>
    intro pf lf rest hpf hlf
    obtain ⟨k, rfl⟩ : ∃ k, lf = k + 1 := ⟨lf - 1, by omega⟩
    have harg : printDetList (d :: d2 :: ds2) ++ ']' :: rest =
        printDetObj d ++ (',' :: (printDetList (d2 :: ds2) ++ ']' :: rest)) := by
      simp [printDetList, List.append_assoc]
    rw [harg]
    simp only [parseListAux, parseValue_detObj d pf _ hpf]
    rw [skipWs_cons_not_ws _ _ (by decide)]
    simp only [ih d2 pf k rest hpf (by simp at hlf ⊢; omega)]
    simp [List.map]

theorem jsonParse_serializeDetections (x : List Detection) :
    jsonParse (serializeDetections x) = some (jsDetections x) := by
  cases x with
  | nil => rfl
  | cons d ds =>
    unfold jsonParse
    have hdata : (serializeDetections (d :: ds)).data =
        '[' :: (printDetList (d :: ds) ++ [']']) := by
      simp [serializeDetections]
    rw [hdata]
    set L := (printDetList (d :: ds)).length with hL
    have hlen : ('[' :: (printDetList (d :: ds) ++ [']'])).length = L + 2 := by
      simp [hL]
    rw [hlen]
    have hbound := printDetList_length_ge d ds
    obtain ⟨t0, ht0⟩ : ∃ t0, printDetList (d :: ds) = '\x7b' :: t0 := by
      cases ds <;> exact ⟨_, rfl⟩
    obtain ⟨m, hm⟩ : ∃ m, 2 * (L + 2) + 2 = m + 1 := ⟨2 * L + 5, by omega⟩
    rw [hm, parseValue_succ]
    have hval : parseValueStep (parseValue m) m ('[' :: (printDetList (d :: ds) ++ [']'])) =
        some (.arr ((d :: ds).map detJs), []) := by
      rw [parseValueStep_bracket]
      have helems := parseListAux_dets d ds m m [] (by omega) (by omega)
      rw [ht0, List.cons_append] at helems ⊢
      rw [skipWs_cons_not_ws _ _ (by decide)]
      show (match parseListAux (parseValue m) m ('\x7b' :: (t0 ++ [']'])) with
        | some p => some (Js.arr p.1, p.2)
        | none => none) = some (.arr ((d :: ds).map detJs), [])
      rw [helems]
    rw [hval]
    rfl

end WorldLab

namespace WorldLab

theorem jsToDetection_detJs (d : Detection) : jsToDetection (detJs d) = some d := rfl

theorem detectionsOfList_map (x : List Detection) :
    detectionsOfList (x.map detJs) = some x := by
  induction x with
  | nil => rfl
  | cons d ds ih =>
    simp only [List.map_cons, detectionsOfList, jsToDetection_detJs, ih]

/-- C9: serializing a list of well-formed detections and extracting it
yields the same list back: the direct-parse stage succeeds on the
serialized text and decoding the parsed value returns the original list. -/
theorem c9_roundtrip (x : List Detection) (h : ∀ d ∈ x, detWellFormed d) :
    extractJsonFromResponse (serializeDetections x) = .value (jsDetections x) ∧
      detectionsOfJs (jsDetections x) = some x := by
  constructor
  · unfold extractJsonFromResponse
    rw [jsonParse_serializeDetections]
  · simp only [detectionsOfJs, jsDetections, detectionsOfList_map]

/-- Witness for C9 at a concrete one-detection list. -/
theorem c9_roundtrip_witness :
    extractJsonFromResponse (serializeDetections [⟨"car", ⟨false, 95, 2, 0⟩⟩]) =
        .value (jsDetections [⟨"car", ⟨false, 95, 2, 0⟩⟩]) ∧
      detectionsOfJs (jsDetections [⟨"car", ⟨false, 95, 2, 0⟩⟩]) =
        some [⟨"car", ⟨false, 95, 2, 0⟩⟩] :=
  c9_roundtrip _ (by
    intro d hd
    rw [List.mem_singleton] at hd
    subst hd
    norm_num [detWellFormed, JNum.toRat])

end WorldLab
